import Mathlib

/-!
Verification of the seed-driven procedural music core (`src/audio/AudioEngine.ts`).

The TypeScript source is shallowly embedded here:
* JavaScript 32-bit integer arithmetic (`Math.imul`, `^`, `<<`, `>>>`, `|0`)
  is modelled on `ℕ` with explicit reduction modulo `2^32`; an unsigned
  residue carries the same bit pattern as the signed JS value, and every
  operation used by the source (add, mul, xor, or, shifts) agrees with the
  two's-complement semantics on residues.
* JavaScript floats produced by the generator (`t >>> 0) / 4294967296`) and
  the control-modulation arithmetic are modelled exactly on `ℚ`.
* The `euclid` pattern generator's inner `while` loop divides by
  `remainders[level]`; when that entry is `0` (which happens exactly when
  `k = 0`), JavaScript produces `NaN` remainders, the `remainders[level] <= 1`
  test is false forever, and the loop never exits.  Divergence is modelled by
  `Option`: `none` means the original call never returns.
* The engine object is a state record; methods become state-passing functions.
  Calls into the Web Audio synthesis backend (the `trig*` methods) are
  modelled as emitted `Trigger` values; their acoustic payloads (envelopes,
  `mtof` frequencies) are backend sound-design detail outside the core.
-/

namespace GenArt

/-! ## Deterministic generator: cyrb128 + sfc32 -/

/-- Modulus of JavaScript 32-bit integer arithmetic. -/
def M32 : ℕ := 4294967296

/-- `Math.imul x y`: 32-bit multiply; unsigned residue of the result. -/
def imul (x y : ℕ) : ℕ := (x * y) % M32

/-- One step of the `cyrb128` hashing loop over one UTF-16 code unit `k`.
JS reassigns `h1..h4` sequentially; `let`-shadowing reproduces that order
(`h4` reads the freshly assigned `h1`). -/
def cyrb128Step (h : ℕ × ℕ × ℕ × ℕ) (k : ℕ) : ℕ × ℕ × ℕ × ℕ :=
  let (h1, h2, h3, h4) := h
  let h1 := h2 ^^^ imul (h1 ^^^ k) 597399067
  let h2 := h3 ^^^ imul (h2 ^^^ k) 2869860233
  let h3 := h4 ^^^ imul (h3 ^^^ k) 951274213
  let h4 := h1 ^^^ imul (h4 ^^^ k) 2716044179
  (h1, h2, h3, h4)

/-- `cyrb128(str)`: the seed string is its list of UTF-16 code units
(`charCodeAt`).  Returns `[(h1^h2^h3^h4)>>>0, h1, h2, h3]` after the final
mixing rounds (again sequentially reassigned). -/
def cyrb128 (seed : List ℕ) : ℕ × ℕ × ℕ × ℕ :=
  let (h1, h2, h3, h4) :=
    seed.foldl cyrb128Step (1779033703, 3144134277, 1013904242, 2773480762)
  let h1 := imul (h3 ^^^ (h1 >>> 18)) 597399067
  let h2 := imul (h4 ^^^ (h2 >>> 22)) 2869860233
  let h3 := imul (h1 ^^^ (h3 >>> 17)) 951274213
  let h4 := imul (h2 ^^^ (h4 >>> 19)) 2716044179
  (h1 ^^^ h2 ^^^ h3 ^^^ h4, h1, h2, h3)

/-- Internal state `(a, b, c, d)` of the `sfc32` generator closure. -/
structure Sfc32State where
  a : ℕ
  b : ℕ
  c : ℕ
  d : ℕ
  deriving DecidableEq, Repr

/-- One call of the `sfc32` closure.  Returns the 32-bit word `t`; the JS
float returned is `t / 4294967296` (see `rngFloat`).  The `let`-shadowing
chain mirrors the sequential JS assignments, and `% M32` models each
`>>>= 0` / `| 0` coercion. -/
def sfc32Step (st : Sfc32State) : ℕ × Sfc32State :=
  let a := st.a % M32
  let b := st.b % M32
  let c := st.c % M32
  let d := st.d % M32
  let t := (a + b) % M32
  let a := b ^^^ (b >>> 9)
  let b := (c + (c <<< 3) % M32) % M32
  let c := (c <<< 21) % M32 ||| (c >>> 11)
  let d := (d + 1) % M32
  let t := (t + d) % M32
  let c := (c + t) % M32
  (t, ⟨a, b, c, d⟩)

/-- `makeRng(seed)`: hash the seed with `cyrb128` and seed `sfc32` with the
four words. -/
def makeRng (seed : List ℕ) : Sfc32State :=
  let s := cyrb128 seed
  ⟨s.1, s.2.1, s.2.2.1, s.2.2.2⟩

/-- State of the generator after `n` calls. -/
def sfc32Iter (st : Sfc32State) : ℕ → Sfc32State
  | 0 => st
  | n + 1 => sfc32Iter (sfc32Step st).2 n

/-- The 32-bit word returned by call number `n` (0-indexed). -/
def sfc32Nth (st : Sfc32State) (n : ℕ) : ℕ := (sfc32Step (sfc32Iter st n)).1

/-- The float returned by the `n`-th call of the generator derived from
`seed`: a pure function of seed and call count. -/
def rngFloat (seed : List ℕ) (n : ℕ) : ℚ := (sfc32Nth (makeRng seed) n : ℚ) / M32

/-! ## Euclidean rhythm generator (Bjorklund) -/

/-- The `while (true)` loop of `euclid`, as a function of the current
`divisor` and the last pushed remainder `r` (`remainders[level]`).  Returns
the pairs of lists pushed from this level on: the `counts` entries (with the
final `counts.push(divisor)` appended) and the `remainders` entries after
`r`.  When `r = 0` the JS loop divides by zero: `remainders` becomes `NaN`
from then on, `NaN <= 1` is false, and the loop never breaks — the call
never returns, modelled as `none`.  The fuel argument only drives the
recursion; `fuel ≥ r` always suffices (`euclidLoopF_isSome`). -/
def euclidLoopF : ℕ → ℕ → ℕ → Option (List ℕ × List ℕ)
  | 0, _, _ => none
  | fuel + 1, divisor, r =>
    if r = 0 then none
    else
      let c := divisor / r
      let r' := divisor % r
      if r' ≤ 1 then some ([c, r], [r'])
      else
        match euclidLoopF fuel r r' with
        | none => none
        | some (cs, rs) => some (c :: cs, r' :: rs)

/-- The loop entered with `divisor` and `remainders = [r]`; `r` strictly
decreases across iterations, so `r + 1` units of fuel always suffice. -/
def euclidLoop (divisor r : ℕ) : Option (List ℕ × List ℕ) :=
  euclidLoopF (r + 1) divisor r

/-- The recursive `build` helper, generalised over the two base sequences
(`B0` at level `-2`, `B1` at level `-1`); argument `i` stands for
`level + 2`. -/
def buildGen (B0 B1 counts remainders : List ℕ) : ℕ → List ℕ
  | 0 => B0
  | 1 => B1
  | i + 2 =>
    (List.replicate (counts.getD i 0) (buildGen B0 B1 counts remainders (i + 1))).flatten
      ++ (if remainders.getD i 0 ≠ 0 then buildGen B0 B1 counts remainders i else [])

/-- `build(level)` from the source: base cases `build(-2) = [1]`,
`build(-1) = [0]`; `i = level + 2`. -/
def build (counts remainders : List ℕ) (i : ℕ) : List ℕ :=
  buildGen [1] [0] counts remainders i

/-- `pattern.map(x => x ? 1 : 0)`. -/
def map01 (l : List ℕ) : List ℕ := l.map fun x => if x = 0 then 0 else 1

/-- `euclid(k, n, rot)`.  `k` is clamped to `[0, n]`
(`Math.max(0, Math.min(k, n))`; inputs are naturals, so only the upper clamp
matters).  The rotation is normalised by `((rot % n) + n) % n` where `%` is
the JS truncated remainder (`Int.tmod`), then the pattern is rotated left by
`slice`/`concat` and mapped to 0/1.  `none` models the `k = 0` divergence of
the inner loop. -/
def euclid (k n : ℕ) (rot : ℤ) : Option (List ℕ) :=
  let k := min k n
  match euclidLoop (n - k) k with
  | none => none
  | some (cs, rs) =>
    let counts := cs
    let remainders := k :: rs
    let level := remainders.length - 1
    let pattern := build counts remainders (level + 2)
    let rotN := ((rot.tmod (n : ℤ) + (n : ℤ)).tmod (n : ℤ)).toNat
    some (map01 (pattern.drop rotN ++ pattern.take rotN))

/-! ### Onsets and onset-to-onset gaps (for the rotation-invariance claim) -/

/-- Indices of the onsets (nonzero entries) of a pattern. -/
def onsetList (l : List ℕ) : List ℕ :=
  (List.range l.length).filter fun i => l.getD i 0 != 0

/-- Cyclic distance from position `p` to the next onset (at least 1):
index of the first onset in the pattern rotated just past `p`, plus 1. -/
def nextGap (l : List ℕ) (p : ℕ) : ℕ :=
  (l.rotate (p + 1)).findIdx (fun x => x != 0) + 1

/-- The multiset of onset-to-onset gaps of a cyclic pattern. -/
def gapsOf (l : List ℕ) : Multiset ℕ :=
  ((onsetList l).map (nextGap l) : List ℕ)

/-! ## Scale / note helpers -/

/-- `clamp(x, a, b)`. -/
def clamp (x a b : ℚ) : ℚ := min b (max a x)

/-- `lerp(a, b, t)`. -/
def lerp (a b t : ℚ) : ℚ := a + (b - a) * t

/-- `Math.floor` for the nonnegative values fed to it here. -/
def flo (q : ℚ) : ℕ := (⌊q⌋).toNat

/-- `Math.round` (round half up), for the nonnegative values fed to it here. -/
def jsRound (q : ℚ) : ℕ := (⌊q + 1/2⌋).toNat

/-- The six fixed scales (Phrygian, Locrian, Whole, Dorian, Harmonic minor,
Octatonic). -/
def SCALES : List (List ℕ) :=
  [[0, 1, 3, 5, 7, 8, 10], [0, 1, 3, 5, 6, 8, 10], [0, 2, 4, 6, 8, 10],
   [0, 2, 3, 5, 7, 9, 10], [0, 2, 3, 5, 7, 8, 11], [0, 2, 3, 5, 6, 8, 9, 11]]

/-! ## The AudioEngine state -/

/-- The external control vector (`AudioControls`): `fx`, `fy`, `approach`,
`activity`, plus the unused `mode` slot. -/
structure AudioControls where
  fx : ℚ
  fy : ℚ
  approach : ℚ
  activity : ℚ
  mode : ℚ
  deriving DecidableEq, Repr

/-- The mutable fields of the `AudioEngine` object.  `intervalInstalled`
models whether the `setInterval` handle `_int` is live; Web Audio node
objects (master gain, sends, panners) are backend state and are not part of
the core's data model (their smoothed target updates are emitted as
`BusCmd`s). -/
structure EngineState where
  rngSt : Sfc32State
  running : Bool
  intervalInstalled : Bool
  nextNoteTime : ℚ
  beat : ℕ
  lookahead : ℚ
  scheduleAheadTime : ℚ
  bpm : ℚ
  swing : ℚ
  vol : ℚ
  Lk : ℕ
  Ls : ℕ
  Lh : ℕ
  La : ℕ
  Lb : ℕ
  Lp : ℕ
  denKick : ℕ
  denSnare : ℕ
  denHat : ℕ
  denArp : ℕ
  denBass : ℕ
  denClaps : ℕ
  scale : List ℕ
  baseNote : ℕ
  deriving DecidableEq, Repr

/-- The class field initializers.  The `rng = Math.random` initializer is
replaced by an inert all-zero sfc32 state: the constructor immediately
overwrites it via `setSeed`, and no claim concerns the pre-seed generator. -/
def initEngine : EngineState where
  rngSt := ⟨0, 0, 0, 0⟩
  running := false
  intervalInstalled := false
  nextNoteTime := 0
  beat := 0
  lookahead := 1/40            -- 0.025
  scheduleAheadTime := 3/20    -- 0.15
  bpm := 110
  swing := 0
  vol := 4/5                   -- 0.8
  Lk := 15
  Ls := 12
  Lh := 17
  La := 14
  Lb := 13
  Lp := 16
  denKick := 5
  denSnare := 4
  denHat := 9
  denArp := 6
  denBass := 6
  denClaps := 3
  scale := [0, 1, 3, 5, 7, 8, 10]   -- SCALES[0]
  baseNote := 36

/-- One `this.rng()` call: the float and the updated engine state. -/
def engRng (s : EngineState) : ℚ × EngineState :=
  let (t, r) := sfc32Step s.rngSt
  ((t : ℚ) / M32, { s with rngSt := r })

/-- `setSeed(seed)`.  The method performs 13 sequential `this.rng()` calls on
the freshly created generator; call number `i` returns `rngFloat seed i`, so
each field is written here in terms of its draw index (0-based), and the
stored generator state is the state after those 13 calls. -/
def setSeed (s : EngineState) (seed : List ℕ) : EngineState :=
  { s with
    rngSt := sfc32Iter (makeRng seed) 13,
    -- const primes = [13,15,17,19]
    Lk := [13, 15, 17, 19].getD (flo (rngFloat seed 0 * 4)) 0,
    Ls := [12, 14, 16].getD (flo (rngFloat seed 1 * 3)) 0,
    Lh := [13, 15, 17, 19].getD (flo (rngFloat seed 2 * 4)) 0,
    La := [10, 11, 14, 18].getD (flo (rngFloat seed 3 * 4)) 0,
    Lb := [13, 15, 17, 19].getD (flo (rngFloat seed 4 * 4)) 0,
    Lp := 16,
    denKick := 4 + flo (rngFloat seed 5 * 4),
    denSnare := 3 + flo (rngFloat seed 6 * 4),
    denHat := 8 + flo (rngFloat seed 7 * 6),
    denArp := 5 + flo (rngFloat seed 8 * 6),
    denBass := 4 + flo (rngFloat seed 9 * 5),
    denClaps := 2 + flo (rngFloat seed 10 * 3),
    scale := SCALES.getD (flo (rngFloat seed 11 * 6)) [],
    baseNote := 32 + flo (rngFloat seed 12 * 8) }

/-- `new AudioEngine(seed)`: node setup is backend detail; the core effect is
`setSeed(seed)` on the field initializers. -/
def mkEngine (seed : List ℕ) : EngineState := setSeed initEngine seed

/-- `setVolume(v)` (the `master.gain.value` write is backend state). -/
def setVolume (s : EngineState) (v : ℚ) : EngineState := { s with vol := v }

/-- Smoothed parameter updates issued to backend nodes by `updateControls`
(`setTargetAtTime` on the reverb send, delay send and the two panners). -/
inductive BusCmd where
  | revGain (v : ℚ)
  | delayGain (v : ℚ)
  | panHats (v : ℚ)
  | panArp (v : ℚ)
  deriving DecidableEq, Repr

/-- `updateControls(c)`: smoothed tempo/swing approach, hat/snare density
overrides, and the four smoothed node-target updates. -/
def updateControls (s : EngineState) (c : AudioControls) : EngineState × List BusCmd :=
  let tgtBpm := 90 + c.activity * 70 + |c.fx| * 10 + |c.fy| * 6
  let bpm := lerp s.bpm (clamp tgtBpm 70 180) (2/25)                          -- 0.08
  let swing := lerp s.swing (clamp (c.fy * (3/25)) (-(3/20)) (3/20)) (1/20)   -- 0.12, ±0.15, 0.05
  let k := clamp c.activity 0 1
  let denHat := jsRound (8 + k * 8)
  let denSnare := jsRound (3 + k * 5)
  ({ s with bpm := bpm, swing := swing, denHat := denHat, denSnare := denSnare },
   [BusCmd.revGain (lerp (1/10) (3/10) (clamp (c.approach * (1/2) + 1/2) 0 1)),
    BusCmd.delayGain (lerp (2/25) (11/50) |c.fx|),
    BusCmd.panHats (clamp c.fx (-1) 1),
    BusCmd.panArp (clamp c.fy (-1) 1)])

/-- The seven instrument roles whose `trig*` backend calls the engine can
issue. -/
inductive Role where
  | kick | snare | hat | clap | bass | arp | pad
  deriving DecidableEq, Repr

/-- A backend trigger call: which role fired and the scheduled timestamp.
Amplitude/frequency payloads are backend sound-design parameters; the
generator draws used to produce them are modelled (they advance the rng). -/
structure Trigger where
  role : Role
  time : ℚ
  deriving DecidableEq, Repr

/-- `scheduleStep(beat, time)`: voice dispatch for one 16th-note step.  Each
role looks up its Euclid pattern (a fresh `euclid(...)` call; `none`
propagates the divergence of such a call, in which case the JS method never
returns), applies its probability gate, and fires.  `let`-shadowing threads
the rng state through the draws in source order; `_`-prefixed values are
backend payload parameters (amplitudes, frequencies, pitches) whose draws
advance the generator but whose values only shape the sound.  Note that the
method never consults `running`. -/
def scheduleStep (s : EngineState) (beat : ℕ) (time : ℚ) : Option (EngineState × List Trigger) :=
  let kStep := beat % s.Lk
  let sStep := beat % s.Ls
  let hStep := beat % s.Lh
  let aStep := beat % s.La
  let bStep := beat % s.Lb
  let pStep := beat % s.Lp
  -- if (euclid(denKick, Lk, 0)[kStep]) trigKick(time, 0.9 + 0.2*rng())
  match euclid s.denKick s.Lk 0 with
  | none => none
  | some pk =>
  let (s, tk) :=
    if pk.getD kStep 0 ≠ 0 then
      let (_amp, s) := engRng s
      (s, [Trigger.mk Role.kick time])
    else (s, [])
  -- if (euclid(denSnare, Ls, 3)[sStep] && rng() < 0.95) trigSnare(time, 1800 + 800*rng())
  match euclid s.denSnare s.Ls 3 with
  | none => none
  | some psn =>
  let (s, tsn) :=
    if psn.getD sStep 0 ≠ 0 then
      let (g, s) := engRng s
      if g < 19/20 then
        let (_freq, s) := engRng s
        (s, [Trigger.mk Role.snare time])
      else (s, [])
    else (s, [])
  -- if (euclid(denHat, Lh, 2)[hStep]) trigHat(time, 0.25 + 0.1*rng())
  match euclid s.denHat s.Lh 2 with
  | none => none
  | some ph =>
  let (s, th) :=
    if ph.getD hStep 0 ≠ 0 then
      let (_amp, s) := engRng s
      (s, [Trigger.mk Role.hat time])
    else (s, [])
  -- if (euclid(denClaps, Ls, 1)[sStep] && rng() < 0.35) trigClap(time + 0.002, 0.18)
  match euclid s.denClaps s.Ls 1 with
  | none => none
  | some pc =>
  let (s, tc) :=
    if pc.getD sStep 0 ≠ 0 then
      let (g, s) := engRng s
      if g < 7/20 then (s, [Trigger.mk Role.clap (time + 1/500)])
      else (s, [])
    else (s, [])
  -- if (euclid(denBass, Lb, 0)[bStep] && rng() < 0.85) { deg…; note…; trigFMBass }
  match euclid s.denBass s.Lb 0 with
  | none => none
  | some pb =>
  let (s, tb) :=
    if pb.getD bStep 0 ≠ 0 then
      let (g, s) := engRng s
      if g < 17/20 then
        let (q1, s) := engRng s
        let deg := s.scale.getD ((bStep + flo (q1 * 3)) % s.scale.length) 0
        let (q2, s) := engRng s
        let _note := s.baseNote + deg + (if q2 < 1/5 then 12 else 0)
        (s, [Trigger.mk Role.bass time])   -- trigFMBass(time, mtof(_note), 0.35)
      else (s, [])
    else (s, [])
  -- if (euclid(denArp, La, 0)[aStep] && rng() < 0.9) { deg…; note…; trigArp }
  match euclid s.denArp s.La 0 with
  | none => none
  | some pa =>
  let (s, ta) :=
    if pa.getD aStep 0 ≠ 0 then
      let (g, s) := engRng s
      if g < 9/10 then
        let (q1, s) := engRng s
        let deg := s.scale.getD ((aStep * 2 + flo (q1 * 2)) % s.scale.length) 0
        let (q2, s) := engRng s
        let _note := s.baseNote + 12 + deg + (if q2 < 3/10 then 12 else 0)
        (s, [Trigger.mk Role.arp time])    -- trigArp(time, mtof(_note), 0.18)
      else (s, [])
    else (s, [])
  -- if (pStep % 8 === 0 && rng() < 0.6) trigPad(time, mtof(...), 0.5 + 0.2*rng())
  -- (trigPad itself draws one detune sample per voice, 3 voices)
  let (s, tp) :=
    if pStep % 8 = 0 then
      let (g, s) := engRng s
      if g < 3/5 then
        let (_amp, s) := engRng s
        let _deg := s.scale.getD ((pStep / 2 + 1) % s.scale.length) 0
        let (_d1, s) := engRng s
        let (_d2, s) := engRng s
        let (_d3, s) := engRng s
        (s, [Trigger.mk Role.pad time])
      else (s, [])
    else (s, [])
  some (s, tk ++ tsn ++ th ++ tc ++ tb ++ ta ++ tp)

/-- The `while (nextNoteTime < cur + scheduleAheadTime)` loop of
`scheduler()`.  Accumulates the `(beat, timestamp)` pairs handed to
`scheduleStep` and the triggers those dispatched.  `secPerBeat = 60/bpm` is
recomputed here each iteration; the source computes it once per tick, and
`scheduleStep` never writes `bpm`, so the value is identical.  The loop
terminates whenever `bpm > 0` (the cursor gains `0.25·60/bpm` per
iteration); the fuel bounds the recursion and is ample for every scenario
below. -/
def schedulerLoopF : ℕ → EngineState → ℚ → List (ℕ × ℚ) → List Trigger →
    Option (EngineState × List (ℕ × ℚ) × List Trigger)
  | 0, _, _, _, _ => none
  | fuel + 1, s, cur, steps, trigs =>
    if s.nextNoteTime < cur + s.scheduleAheadTime then
      let secPerBeat := 60 / s.bpm
      let step16 := if s.beat % 2 = 1 then s.swing * secPerBeat * (1/2) else 0
      let t := s.nextNoteTime + step16
      match scheduleStep s s.beat t with
      | none => none
      | some (s1, tr) =>
        let s2 := { s1 with
          nextNoteTime := s1.nextNoteTime + (1/4) * secPerBeat,
          beat := (s1.beat + 1) % 4096 }
        schedulerLoopF fuel s2 cur (steps ++ [(s.beat, t)]) (trigs ++ tr)
    else some (s, steps, trigs)

/-- Fuel bound for one `scheduler()` tick. -/
def schedFuel : ℕ := 1000

/-- `scheduler()` run at wall-clock time `cur` (`ctx.currentTime`). -/
def scheduler (s : EngineState) (cur : ℚ) : Option (EngineState × List (ℕ × ℚ) × List Trigger) :=
  schedulerLoopF schedFuel s cur [] []

/-- `async start()` at wall-clock time `curTime`; `resumeOk` is whether
`await this.ctx.resume()` succeeds.  The returned flag is the outcome of the
promise `start()` hands its caller: `false` means the `resume` rejection
propagated out of `start()` (the statements after the `await` were
skipped). -/
def start (s : EngineState) (curTime : ℚ) (resumeOk : Bool) : EngineState × Bool :=
  if s.running then (s, true)
  else
    let s := { s with running := true }
    if resumeOk then
      ({ s with nextNoteTime := curTime + 1/20, beat := 0, intervalInstalled := true }, true)
    else (s, false)

/-- `stop()`: clears the running flag and cancels the `setInterval` timer
(`ctx.suspend()` is backend state). -/
def stop (s : EngineState) : EngineState :=
  if !s.running then s
  else { s with running := false, intervalInstalled := false }

/-! ### Post-`stop` operational model

JavaScript's event loop runs each callback to completion: a `scheduler` tick
and a `stop()` call never interleave, so the observable behaviour after
`stop()` returns is the sequence of callbacks that run afterwards.  `start`
is deliberately absent from the action alphabet: the claim concerns the
period after `stop()` with no restart. -/

/-- Events that can run after `stop()` returns: a timer tick at wall-clock
time `cur`, another `stop()`, a control update, a reseed, or a volume
change. -/
inductive EngAction where
  | tick (cur : ℚ)
  | stopAct
  | updateAct (c : AudioControls)
  | setSeedAct (seed : List ℕ)
  | setVolumeAct (v : ℚ)

/-- Effect of one event on the engine: the new state and the backend
triggers dispatched.  A tick only runs if the interval timer is installed;
`none` propagates a diverging tick (the callback never returns, so nothing
further runs). -/
def stepAction (s : EngineState) : EngAction → Option (EngineState × List Trigger)
  | EngAction.tick cur =>
    if s.intervalInstalled then
      (scheduler s cur).map fun r => (r.1, r.2.2)
    else some (s, [])
  | EngAction.stopAct => some (stop s, [])
  | EngAction.updateAct c => some ((updateControls s c).1, [])
  | EngAction.setSeedAct seed => some (setSeed s seed, [])
  | EngAction.setVolumeAct v => some (setVolume s v, [])

/-- Run a sequence of events, collecting every trigger dispatched before a
possible divergence; `none` in the second component records that some
callback hung. -/
def runTrace (s : EngineState) : List EngAction → List Trigger × Option EngineState
  | [] => ([], some s)
  | a :: rest =>
    match stepAction s a with
    | none => ([], none)
    | some (s1, trigs) =>
      let r := runTrace s1 rest
      (trigs ++ r.1, r.2)

/-! ### Concrete 10-second / 120 BPM scenario -/

/-- The engine seeded (any seed: the empty string), then pinned to the
scenario's fixed tempo of 120 BPM with no tempo modulation. -/
def c9Engine : EngineState := { mkEngine [] with bpm := 120 }

/-- The scenario's transport start at wall-clock 0 (cursor set to 0.05). -/
def c9Started : EngineState := (start c9Engine 0 true).1

/-- 400 timer ticks at the 25 ms `setInterval` period, i.e. the simulated
clock advanced to exactly 10 s; counts the 16th-note steps dispatched. -/
def c9Run : Option (EngineState × ℕ) :=
  (List.range 400).foldlM
    (fun acc i =>
      (scheduler acc.1 (((i : ℚ) + 1) / 40)).map fun r => (r.1, acc.2 + r.2.1.length))
    (c9Started, 0)

/-- Number of steps scheduled in the 10-second scenario. -/
def c9Count : Option ℕ := c9Run.map fun r => r.2


/-- The clamped tempo target computed by `updateControls` from the raw
control vector (named subterm of the source expression, for the statements
below). -/
def tgtBpmOf (c : AudioControls) : ℚ :=
  clamp (90 + c.activity * 70 + |c.fx| * 10 + |c.fy| * 6) 70 180

/-- Density/length invariant for the six rhythmic roles.  Densities are
naturals in the model, so the `0 ≤ density` half of the spec's invariant is
automatic. -/
def denInv (s : EngineState) : Prop :=
  s.denKick ≤ s.Lk ∧ s.denSnare ≤ s.Ls ∧ s.denHat ≤ s.Lh ∧
  s.denClaps ≤ s.Ls ∧ s.denBass ≤ s.Lb ∧ s.denArp ≤ s.La

/-! ## Proofs

First the generator: range of its outputs, then the claims C1, C6 and C10,
then the Bjorklund machinery for C2, C3 and C8, the transport and stop/start
claims C4, C5 and C9, and the density invariant C7. -/

/-- Every sfc32 output word is a 32-bit value (the returned `t` carries an
explicit `| 0` truncation). -/
theorem sfc32Step_fst_lt (st : Sfc32State) : (sfc32Step st).1 < M32 := by
  have hM : 0 < M32 := by norm_num [M32]
  simp only [sfc32Step]
  exact Nat.mod_lt _ hM

theorem rngFloat_nonneg (seed : List ℕ) (n : ℕ) : 0 ≤ rngFloat seed n := by
  unfold rngFloat; positivity

theorem rngFloat_lt_one (seed : List ℕ) (n : ℕ) : rngFloat seed n < 1 := by
  unfold rngFloat sfc32Nth
  rw [div_lt_one (by norm_num [M32])]
  exact_mod_cast sfc32Step_fst_lt (sfc32Iter (makeRng seed) n)

/-- C1: the generator is a pure function of seed and call index — two
generators derived from the same seed string (the empty string included)
return equal values at every call index — and every returned float lies in
the half-open interval `[0, 1)`. -/
theorem rng_pure_deterministic_in_unit_range (s1 s2 : List ℕ) (h : s1 = s2) (n : ℕ) :
    rngFloat s1 n = rngFloat s2 n ∧ 0 ≤ rngFloat s1 n ∧ rngFloat s1 n < 1 := by
  subst h
  exact ⟨rfl, rngFloat_nonneg s1 n, rngFloat_lt_one s1 n⟩

/-- Witness for C1 at the concrete seed `"a"` (code units `[97]`), call
index 5. -/
theorem rng_pure_deterministic_in_unit_range_witness :
    rngFloat [97] 5 = rngFloat [97] 5 ∧ 0 ≤ rngFloat [97] 5 ∧ rngFloat [97] 5 < 1 :=
  rng_pure_deterministic_in_unit_range [97] [97] rfl 5

/-- C6: the applied tempo is a fixed-fraction exponential approach toward a
target clamped to `[70, 180]`: the target is in range, the applied change is
exactly (hence at most) `0.08` of the distance to target, the target is
never reached in one update while the distance is nonzero, and the applied
tempo stays inside `[70, 180]` whenever the previous tempo was. -/
theorem updateControls_tempo_smoothing (s : EngineState) (c : AudioControls)
    (h1 : 70 ≤ s.bpm) (h2 : s.bpm ≤ 180) :
    (70 ≤ tgtBpmOf c ∧ tgtBpmOf c ≤ 180) ∧
    (updateControls s c).1.bpm - s.bpm = (2/25) * (tgtBpmOf c - s.bpm) ∧
    |(updateControls s c).1.bpm - s.bpm| ≤ (2/25) * |tgtBpmOf c - s.bpm| ∧
    (tgtBpmOf c ≠ s.bpm → (updateControls s c).1.bpm ≠ tgtBpmOf c) ∧
    70 ≤ (updateControls s c).1.bpm ∧ (updateControls s c).1.bpm ≤ 180 := by
  have htgt1 : 70 ≤ tgtBpmOf c := by
    unfold tgtBpmOf clamp
    exact le_min (by norm_num) (le_max_left _ _)
  have htgt2 : tgtBpmOf c ≤ 180 := min_le_left _ _
  have hbpm : (updateControls s c).1.bpm = lerp s.bpm (tgtBpmOf c) (2/25) := rfl
  have heq : (updateControls s c).1.bpm - s.bpm = (2/25) * (tgtBpmOf c - s.bpm) := by
    rw [hbpm]; unfold lerp; ring
  refine ⟨⟨htgt1, htgt2⟩, heq, ?_, ?_, ?_, ?_⟩
  · rw [heq, abs_mul, abs_of_nonneg (by norm_num : (0:ℚ) ≤ 2/25)]
  · intro hne hcontra
    have hlin : (updateControls s c).1.bpm - tgtBpmOf c = (23/25) * (s.bpm - tgtBpmOf c) := by
      rw [hbpm]; unfold lerp; ring
    rw [hcontra] at hlin
    have : s.bpm - tgtBpmOf c = 0 := by linarith
    exact hne (by linarith)
  · have hcomb : (updateControls s c).1.bpm = (23/25) * s.bpm + (2/25) * tgtBpmOf c := by
      rw [hbpm]; unfold lerp; ring
    rw [hcomb]; linarith
  · have hcomb : (updateControls s c).1.bpm = (23/25) * s.bpm + (2/25) * tgtBpmOf c := by
      rw [hbpm]; unfold lerp; ring
    rw [hcomb]; linarith

/-- Witness for C6 at the default state (tempo 110) and the zero control
vector. -/
theorem updateControls_tempo_smoothing_witness :
    (70 ≤ tgtBpmOf ⟨0, 0, 0, 0, 0⟩ ∧ tgtBpmOf ⟨0, 0, 0, 0, 0⟩ ≤ 180) ∧
    (updateControls initEngine ⟨0, 0, 0, 0, 0⟩).1.bpm - initEngine.bpm =
      (2/25) * (tgtBpmOf ⟨0, 0, 0, 0, 0⟩ - initEngine.bpm) ∧
    |(updateControls initEngine ⟨0, 0, 0, 0, 0⟩).1.bpm - initEngine.bpm| ≤
      (2/25) * |tgtBpmOf ⟨0, 0, 0, 0, 0⟩ - initEngine.bpm| ∧
    (tgtBpmOf ⟨0, 0, 0, 0, 0⟩ ≠ initEngine.bpm →
      (updateControls initEngine ⟨0, 0, 0, 0, 0⟩).1.bpm ≠ tgtBpmOf ⟨0, 0, 0, 0, 0⟩) ∧
    70 ≤ (updateControls initEngine ⟨0, 0, 0, 0, 0⟩).1.bpm ∧
    (updateControls initEngine ⟨0, 0, 0, 0, 0⟩).1.bpm ≤ 180 :=
  updateControls_tempo_smoothing initEngine ⟨0, 0, 0, 0, 0⟩
    (by norm_num [initEngine]) (by norm_num [initEngine])

/-- C10: `updateControls` only writes tempo, swing, hat density and snare
density (besides the emitted smoothed node-target updates): the six pattern
lengths, the kick/clap/bass/arp densities, the scale, the base note, the
step counter, the scheduled-time cursor, the volume and the running flag are
untouched. -/
theorem updateControls_frame (s : EngineState) (c : AudioControls) :
    (updateControls s c).1.Lk = s.Lk ∧ (updateControls s c).1.Ls = s.Ls ∧
    (updateControls s c).1.Lh = s.Lh ∧ (updateControls s c).1.La = s.La ∧
    (updateControls s c).1.Lb = s.Lb ∧ (updateControls s c).1.Lp = s.Lp ∧
    (updateControls s c).1.denKick = s.denKick ∧
    (updateControls s c).1.denClaps = s.denClaps ∧
    (updateControls s c).1.denBass = s.denBass ∧
    (updateControls s c).1.denArp = s.denArp ∧
    (updateControls s c).1.scale = s.scale ∧
    (updateControls s c).1.baseNote = s.baseNote ∧
    (updateControls s c).1.beat = s.beat ∧
    (updateControls s c).1.nextNoteTime = s.nextNoteTime ∧
    (updateControls s c).1.vol = s.vol ∧
    (updateControls s c).1.running = s.running :=
  ⟨rfl, rfl, rfl, rfl, rfl, rfl, rfl, rfl, rfl, rfl, rfl, rfl, rfl, rfl, rfl, rfl⟩

/-! ### Bjorklund machinery (C2, C3, C8) -/

theorem euclidLoopF_isSome :
    ∀ (fuel d r : ℕ), 1 ≤ r → r ≤ fuel → (euclidLoopF fuel d r).isSome = true := by
  intro fuel
  induction fuel with
  | zero => intro d r h1 h2; omega
  | succ fuel ih =>
    intro d r h1 h2
    have hr0 : ¬r = 0 := by omega
    simp only [euclidLoopF, hr0, if_false]
    by_cases hm : d % r ≤ 1
    · simp [hm]
    · simp only [if_neg hm]
      have h2' : d % r ≤ fuel := by
        have := Nat.mod_lt d (show 0 < r by omega)
        omega
      have hrec := ih r (d % r) (by omega) h2'
      obtain ⟨p, hp⟩ := Option.isSome_iff_exists.mp hrec
      obtain ⟨cs, rs⟩ := p
      rw [hp]
      rfl

/-! ### Length and onset count of the built pattern -/

theorem length_flatten_replicate (n : ℕ) (l : List ℕ) :
    (List.replicate n l).flatten.length = n * l.length := by
  induction n with
  | zero => simp
  | succ n ih => simp [List.replicate_succ, ih, Nat.succ_mul, Nat.add_comm]

theorem countP_flatten_replicate (p : ℕ → Bool) (n : ℕ) (l : List ℕ) :
    (List.replicate n l).flatten.countP p = n * l.countP p := by
  induction n with
  | zero => simp
  | succ n ih => simp [List.replicate_succ, ih, Nat.succ_mul, Nat.add_comm]


theorem buildGen_zero (B0 B1 cs rems : List ℕ) : buildGen B0 B1 cs rems 0 = B0 := rfl

theorem buildGen_one (B0 B1 cs rems : List ℕ) : buildGen B0 B1 cs rems 1 = B1 := rfl

theorem buildGen_add_two (B0 B1 cs rems : List ℕ) (i : ℕ) :
    buildGen B0 B1 cs rems (i + 2)
      = (List.replicate (cs.getD i 0) (buildGen B0 B1 cs rems (i + 1))).flatten
        ++ (if rems.getD i 0 ≠ 0 then buildGen B0 B1 cs rems i else []) := rfl

/-- Shifting one level down the `build` recursion. -/
theorem buildGen_shift (B0 B1 : List ℕ) (c r : ℕ) (cs rs : List ℕ) (i : ℕ) :
    buildGen B0 B1 (c :: cs) (r :: rs) (i + 1) =
      buildGen B1 ((List.replicate c B1).flatten ++ if r ≠ 0 then B0 else []) cs rs i := by
  induction i using Nat.strong_induction_on with
  | _ i ih =>
    rcases i with _ | _ | i
    · rfl
    · rfl
    · show buildGen B0 B1 (c :: cs) (r :: rs) ((i + 1) + 2)
        = buildGen B1 ((List.replicate c B1).flatten ++ if r ≠ 0 then B0 else []) cs rs (i + 2)
      conv_rhs => rw [buildGen_add_two]
      rw [buildGen_add_two B0 B1 (c :: cs) (r :: rs) (i + 1)]
      simp only [List.getD_cons_succ]
      rw [ih (i + 1) (by omega), ih i (by omega)]

theorem euclidLoopF_spec :
    ∀ (fuel d r : ℕ) (cs rs : List ℕ), 1 ≤ r →
      euclidLoopF fuel d r = some (cs, rs) →
      ∀ B0 B1 : List ℕ,
        (buildGen B0 B1 cs (r :: rs) (rs.length + 2)).length
            = r * B0.length + d * B1.length ∧
        (buildGen B0 B1 cs (r :: rs) (rs.length + 2)).countP (fun x => x != 0)
            = r * B0.countP (fun x => x != 0) + d * B1.countP (fun x => x != 0) := by
  intro fuel
  induction fuel with
  | zero => intro d r cs rs h1 heq; simp [euclidLoopF] at heq
  | succ fuel ih =>
    intro d r cs rs h1 heq B0 B1
    have hr0 : ¬r = 0 := by omega
    have hd : r * (d / r) + d % r = d := Nat.div_add_mod d r
    simp only [euclidLoopF, hr0, if_false] at heq
    by_cases hm : d % r ≤ 1
    · simp only [if_pos hm, Option.some.injEq, Prod.mk.injEq] at heq
      obtain ⟨hcs, hrs⟩ := heq
      subst hcs hrs
      have hbase : buildGen B0 B1 [d / r, r] [r, d % r] ([d % r].length + 2)
          = (List.replicate r ((List.replicate (d / r) B1).flatten
              ++ (if r ≠ 0 then B0 else []))).flatten
            ++ (if d % r ≠ 0 then B1 else []) := rfl
      rw [hbase, if_pos hr0]
      obtain ⟨q, hq⟩ : ∃ q, d / r = q := ⟨_, rfl⟩
      obtain ⟨m, hmq⟩ : ∃ m, d % r = m := ⟨_, rfl⟩
      rw [hq, hmq] at hd
      rw [hmq] at hm
      rw [hq, hmq]
      subst hd
      rcases (by omega : m = 0 ∨ m = 1) with h | h <;> subst h
      · constructor
        · simp only [List.length_append, length_flatten_replicate, ne_eq,
            not_true_eq_false, if_false, List.length_nil]
          ring
        · simp only [List.countP_append, countP_flatten_replicate, ne_eq,
            not_true_eq_false, if_false, List.countP_nil]
          ring
      · constructor
        · simp only [List.length_append, length_flatten_replicate, ne_eq,
            one_ne_zero, not_false_eq_true, if_true]
          ring
        · simp only [List.countP_append, countP_flatten_replicate, ne_eq,
            one_ne_zero, not_false_eq_true, if_true]
          ring
    · simp only [if_neg hm] at heq
      rcases hrec : euclidLoopF fuel r (d % r) with _ | ⟨cs', rs'⟩
      · rw [hrec] at heq; simp at heq
      · rw [hrec] at heq
        simp only [Option.some.injEq, Prod.mk.injEq] at heq
        obtain ⟨hcs, hrs⟩ := heq
        subst hcs hrs
        obtain ⟨q, hq⟩ : ∃ q, d / r = q := ⟨_, rfl⟩
        obtain ⟨m, hmq⟩ : ∃ m, d % r = m := ⟨_, rfl⟩
        rw [hq, hmq] at hd
        rw [hmq] at hm hrec
        rw [hq, hmq]
        subst hd
        have IH := ih r m cs' rs' (by omega) hrec B1
          ((List.replicate q B1).flatten ++ (if r ≠ 0 then B0 else []))
        have hidx : (m :: rs').length + 2 = (rs'.length + 2) + 1 := rfl
        rw [hidx, buildGen_shift]
        constructor
        · rw [IH.1]
          simp only [List.length_append, length_flatten_replicate, if_pos hr0]
          ring
        · rw [IH.2]
          simp only [List.countP_append, countP_flatten_replicate, if_pos hr0]
          ring

theorem length_map01 (l : List ℕ) : (map01 l).length = l.length := by simp [map01]

theorem countOne_map01 (l : List ℕ) : (map01 l).count 1 = l.countP (fun x => x != 0) := by
  induction l with
  | nil => simp [map01]
  | cons x xs ih =>
    by_cases hx : x = 0
    · subst hx
      simp [map01, List.count_cons, List.countP_cons] at ih ⊢
      exact ih
    · simp [map01, hx, List.count_cons, List.countP_cons] at ih ⊢
      omega

theorem neg_tmod_num (a b : ℤ) : (-a).tmod b = -(a.tmod b) := by
  rw [Int.tmod_def, Int.tmod_def, Int.neg_tdiv]; ring

/-- The JS rotation normalisation `((rot % n) + n) % n` (truncated `%`)
equals the Euclidean remainder. -/
theorem tmod_norm_eq_emod (r : ℤ) (n : ℕ) (hn : 0 < n) :
    (r.tmod (n : ℤ) + (n : ℤ)).tmod (n : ℤ) = r.emod (n : ℤ) := by
  have hN : (0 : ℤ) < (n : ℤ) := by exact_mod_cast hn
  have hlow : -(n : ℤ) ≤ r.tmod (n : ℤ) := by
    rcases le_or_lt 0 r with hr | hr
    · have := Int.tmod_nonneg (n : ℤ) hr
      linarith
    · have hneg : r.tmod (n : ℤ) = -((-r).tmod (n : ℤ)) := by
        rw [neg_tmod_num, neg_neg]
      have h1 : (-r).tmod (n : ℤ) < n := Int.tmod_lt_of_pos _ hN
      rw [hneg]; linarith
  have hx : (0 : ℤ) ≤ r.tmod (n : ℤ) + n := by linarith
  rw [Int.tmod_eq_emod hx (le_of_lt hN)]
  have hcongr : r.tmod (n : ℤ) + n = r + (n : ℤ) * (1 - r.tdiv (n : ℤ)) := by
    rw [Int.tmod_def]; ring
  rw [hcongr, Int.add_mul_emod_self_left]
  rfl

/-- For `1 ≤ k ≤ n` the Bjorklund construction succeeds; the result of
`euclid k n r` is a fixed base pattern of length `n` with `k` onsets, rotated
left by `r` normalised modulo `n`. -/
theorem euclid_some_rotate (k n : ℕ) (hk1 : 1 ≤ k) (hkn : k ≤ n) :
    ∃ q : List ℕ, q.length = n ∧ q.count 1 = k ∧
      ∀ r : ℤ, euclid k n r = some (q.rotate (r.emod (n : ℤ)).toNat) := by
  have hn : 0 < n := lt_of_lt_of_le hk1 hkn
  have hsome := euclidLoopF_isSome (k + 1) (n - k) k hk1 (by omega)
  obtain ⟨⟨cs, rs⟩, hcr⟩ := Option.isSome_iff_exists.mp hsome
  have hspec := euclidLoopF_spec (k + 1) (n - k) k cs rs hk1 hcr [1] [0]
  have hlen : (buildGen [1] [0] cs (k :: rs) (rs.length + 2)).length = n := by
    rw [hspec.1]; simp; omega
  have hcnt : (buildGen [1] [0] cs (k :: rs) (rs.length + 2)).countP (fun x => x != 0) = k := by
    rw [hspec.2]; simp
  refine ⟨map01 (buildGen [1] [0] cs (k :: rs) (rs.length + 2)),
    by rw [length_map01, hlen], by rw [countOne_map01, hcnt], ?_⟩
  intro r
  have hcr' : euclidLoop (n - k) k = some (cs, rs) := hcr
  have hmod1 : 0 ≤ r.emod (n : ℤ) := Int.emod_nonneg r (by exact_mod_cast hn.ne.symm)
  have hmod2 : r.emod (n : ℤ) < (n : ℤ) := Int.emod_lt_of_pos r (by exact_mod_cast hn)
  have hρ : (r.emod (n : ℤ)).toNat ≤ (map01 (buildGen [1] [0] cs (k :: rs) (rs.length + 2))).length := by
    rw [length_map01, hlen]; omega
  simp only [euclid, min_eq_left hkn, hcr']
  rw [tmod_norm_eq_emod r n hn]
  simp only [map01, List.map_append, List.map_take, List.map_drop]
  rw [← List.rotate_eq_drop_append_take (by simpa [map01] using hρ)]
  rfl

theorem onsetList_mem {l : List ℕ} {p : ℕ} :
    p ∈ onsetList l ↔ p < l.length ∧ l.getD p 0 ≠ 0 := by
  simp [onsetList, List.mem_filter, List.mem_range]

theorem onsetList_nodup (l : List ℕ) : (onsetList l).Nodup :=
  (List.nodup_range _).filter _

theorem getD_rotate (l : List ℕ) (m i : ℕ) (hi : i < l.length) :
    (l.rotate m).getD i 0 = l.getD ((i + m) % l.length) 0 := by
  have hlen : 0 < l.length := by omega
  have h1 : i < (l.rotate m).length := by rw [List.length_rotate]; exact hi
  have h2 : (i + m) % l.length < l.length := Nat.mod_lt _ hlen
  rw [List.getD_eq_getElem _ _ h1, List.getD_eq_getElem _ _ h2, List.getElem_rotate]

theorem rotate_congr_mod (l : List ℕ) (a b : ℕ) (hab : a % l.length = b % l.length) :
    l.rotate a = l.rotate b := by
  rw [← List.rotate_mod l a, hab, List.rotate_mod]

/-- The cyclic gap from `p` in a rotated pattern is the gap from the shifted
position in the original pattern. -/
theorem nextGap_rotate (l : List ℕ) (m p : ℕ) :
    nextGap (l.rotate m) p = nextGap l ((p + m) % l.length) := by
  rcases Nat.eq_zero_or_pos l.length with h0 | hpos
  · have hnil : l = [] := List.length_eq_zero.mp h0
    subst hnil
    simp [nextGap, List.rotate]
  · suffices hl : (l.rotate m).rotate (p + 1) = l.rotate ((p + m) % l.length + 1) by
      rw [nextGap, nextGap, hl]
    rw [List.rotate_rotate]
    apply rotate_congr_mod
    have h1 : m + (p + 1) = (p + m) + 1 := by omega
    rw [h1]
    exact ((Nat.mod_modEq (p + m) l.length).add_right 1).symm

/-- The onsets of a rotated pattern, shifted back, are exactly the onsets of
the original pattern (as multisets of positions). -/
theorem onsetList_rotate_map (l : List ℕ) (m : ℕ) (hm : m < l.length) :
    Multiset.map (fun p => (p + m) % l.length)
        ((onsetList (l.rotate m) : List ℕ) : Multiset ℕ)
      = ((onsetList l : List ℕ) : Multiset ℕ) := by
  have hlen : 0 < l.length := by omega
  rw [Multiset.map_coe]
  refine (Multiset.Nodup.ext ?_ ?_).mpr ?_
  · rw [Multiset.coe_nodup]
    refine List.Nodup.map_on ?_ (onsetList_nodup _)
    intro x hx y hy hxy
    rw [onsetList_mem, List.length_rotate] at hx hy
    have hcong : x % l.length = y % l.length :=
      (Nat.ModEq.add_right_cancel' m hxy)
    rwa [Nat.mod_eq_of_lt hx.1, Nat.mod_eq_of_lt hy.1] at hcong
  · rw [Multiset.coe_nodup]
    exact onsetList_nodup l
  · intro a
    simp only [Multiset.mem_coe, List.mem_map]
    constructor
    · rintro ⟨p, hp, rfl⟩
      rw [onsetList_mem, List.length_rotate] at hp
      obtain ⟨hp1, hp2⟩ := hp
      rw [getD_rotate l m p hp1] at hp2
      exact onsetList_mem.mpr ⟨Nat.mod_lt _ hlen, hp2⟩
    · intro ha
      rw [onsetList_mem] at ha
      obtain ⟨ha1, ha2⟩ := ha
      have hshift : ((a + l.length - m) % l.length + m) % l.length = a := by
        have h1 := (Nat.mod_modEq (a + l.length - m) l.length).add_right m
        have h3 : a + l.length - m + m = a + l.length := by omega
        rw [h3] at h1
        have h1' : ((a + l.length - m) % l.length + m) % l.length
            = (a + l.length) % l.length := h1
        rw [Nat.add_mod_right, Nat.mod_eq_of_lt ha1] at h1'
        exact h1'
      refine ⟨(a + l.length - m) % l.length, ?_, hshift⟩
      rw [onsetList_mem, List.length_rotate]
      have hplt : (a + l.length - m) % l.length < l.length := Nat.mod_lt _ hlen
      refine ⟨hplt, ?_⟩
      rw [getD_rotate l m _ hplt, hshift]
      exact ha2

/-- Rotation-invariance of the multiset of onset-to-onset gaps. -/
theorem gapsOf_rotate (l : List ℕ) (m : ℕ) : gapsOf (l.rotate m) = gapsOf l := by
  rcases Nat.eq_zero_or_pos l.length with h0 | hpos
  · have hnil : l = [] := List.length_eq_zero.mp h0
    subst hnil
    simp [List.rotate]
  · have hmrw : l.rotate m = l.rotate (m % l.length) := (List.rotate_mod l m).symm
    rw [hmrw]
    have hm' : m % l.length < l.length := Nat.mod_lt _ hpos
    generalize m % l.length = m' at hm' ⊢
    have hfun : nextGap (l.rotate m') = fun p => nextGap l ((p + m') % l.length) := by
      funext p; exact nextGap_rotate l m' p
    show (↑((onsetList (l.rotate m')).map (nextGap (l.rotate m'))) : Multiset ℕ) = _
    calc (↑((onsetList (l.rotate m')).map (nextGap (l.rotate m'))) : Multiset ℕ)
        = Multiset.map (nextGap (l.rotate m')) ↑(onsetList (l.rotate m')) := by
          rw [Multiset.map_coe]
      _ = Multiset.map (nextGap l)
            (Multiset.map (fun p => (p + m') % l.length) ↑(onsetList (l.rotate m'))) := by
          rw [Multiset.map_map, hfun]; rfl
      _ = Multiset.map (nextGap l) ↑(onsetList l) := by
          rw [onsetList_rotate_map l m' hm']
      _ = ↑((onsetList l).map (nextGap l)) := by rw [Multiset.map_coe]

/-- C2: for `1 ≤ k ≤ n` (encoded as `k = j+1`, `n = j+1+m`), `euclid(k,n,0)`
returns a sequence of exactly `n` values with exactly `k` onsets (so
`euclid(n,n,0)` is all-true).  For `k = 0` however the claim fails on the
code: `euclid(0,8,0)` divides by zero in the remainder loop, the `NaN`
remainders never satisfy `remainders[level] <= 1`, and the call never
returns (`none` in the model) instead of producing the all-false pattern
promised by the spec — a code bug. -/
theorem euclid_length_count_and_zero_divergence (j m : ℕ) :
    (∃ p, euclid (j + 1) (j + 1 + m) 0 = some p ∧ p.length = j + 1 + m ∧ p.count 1 = j + 1) ∧
    euclid 0 8 0 = none := by
  constructor
  · obtain ⟨q, hqlen, hqcnt, hq⟩ := euclid_some_rotate (j + 1) (j + 1 + m) (by omega) (by omega)
    refine ⟨q, ?_, hqlen, hqcnt⟩
    have h0 : ((0 : ℤ).emod ((j + 1 + m : ℕ) : ℤ)).toNat = 0 := by
      show ((0 : ℤ) % ((j + 1 + m : ℕ) : ℤ)).toNat = 0
      rw [Int.zero_emod]
      rfl
    rw [hq 0, h0, List.rotate_zero]
  · rfl

/-- C3 counterexample: `euclid(3,8,0)` does not have its onsets at
`{0, 3, 6}`. -/
theorem euclid_3_8_counterexample :
    ¬((euclid 3 8 0).map onsetList = some [0, 3, 6]) := by decide

/-- C3 (amended): `euclid(3,8,0)` returns the 8-step pattern
`[0,1,0,0,1,0,0,1]` — exactly 3 onsets, maximally even, but at positions
`{1, 4, 7}` (a rotation of the canonical `{0, 3, 6}` placement). -/
theorem euclid_3_8_actual :
    euclid 3 8 0 = some [0, 1, 0, 0, 1, 0, 0, 1] ∧
    (euclid 3 8 0).map onsetList = some [1, 4, 7] := by decide

/-- C8: rotation is normalised modulo `n` and acts as a cyclic permutation:
for `0 ≤ k ≤ n`, `n ≥ 1` and any integers `r`, `r'` — negative included —
`euclid(k,n,r+n) = euclid(k,n,r)`, `euclid(k,n,r)` equals `euclid` at the
JS-normalised rotation `((r % n) + n) % n` (truncated `%`), and the multiset
of onset-to-onset gaps is the same for every rotation.  (For `k = 0` all
calls diverge identically, so the equalities hold of the diverging model
value `none`.) -/
theorem euclid_rotation_normalisation (k n : ℕ) (r r' : ℤ) (hkn : k ≤ n) (hn : 1 ≤ n) :
    euclid k n (r + (n : ℤ)) = euclid k n r ∧
    euclid k n r = euclid k n ((r.tmod (n : ℤ) + (n : ℤ)).tmod (n : ℤ)) ∧
    Option.map gapsOf (euclid k n r) = Option.map gapsOf (euclid k n r') := by
  rcases Nat.eq_zero_or_pos k with hk0 | hk1
  · subst hk0
    have hnone : ∀ ρ : ℤ, euclid 0 n ρ = none := by
      intro ρ
      simp [euclid, euclidLoop, euclidLoopF]
    simp [hnone]
  · obtain ⟨q, hqlen, hqcnt, hq⟩ := euclid_some_rotate k n hk1 hkn
    refine ⟨?_, ?_, ?_⟩
    · rw [hq, hq]
      have h : (r + (n : ℤ)).emod (n : ℤ) = r.emod (n : ℤ) := by
        show (r + (n : ℤ)) % (n : ℤ) = r % (n : ℤ)
        conv_lhs => rw [show r + (n : ℤ) = r + (n : ℤ) * 1 by ring]
        rw [Int.add_mul_emod_self_left]
      rw [h]
    · rw [hq, hq]
      have h1 : (r.tmod (n : ℤ) + (n : ℤ)).tmod (n : ℤ) = r.emod (n : ℤ) :=
        tmod_norm_eq_emod r n (by omega)
      have h2 : (r.emod (n : ℤ)).emod (n : ℤ) = r.emod (n : ℤ) :=
        Int.emod_emod_of_dvd _ dvd_rfl
      rw [h1, h2]
    · rw [hq r, hq r']
      simp only [Option.map_some']
      rw [gapsOf_rotate, gapsOf_rotate]

/-- Witness for C8 at `k = 3`, `n = 8`, `r = -5`, `r' = 7`. -/
theorem euclid_rotation_normalisation_witness :
    euclid 3 8 ((-5) + ((8 : ℕ) : ℤ)) = euclid 3 8 (-5) ∧
    euclid 3 8 (-5) = euclid 3 8 (((-5 : ℤ).tmod ((8 : ℕ) : ℤ) + ((8 : ℕ) : ℤ)).tmod ((8 : ℕ) : ℤ)) ∧
    Option.map gapsOf (euclid 3 8 (-5)) = Option.map gapsOf (euclid 3 8 7) :=
  euclid_rotation_normalisation 3 8 (-5) 7 (by norm_num) (by norm_num)


/-! ### Transport, stop and start (C4, C5, C9) -/

/-- C5: evaluating `start()` at the failing input (a stopped engine whose
`ctx.resume()` rejects).  The failure is reported to the caller (the promise
rejects, `.2 = false`) and no scheduling timer is installed, but the
transport does **not** remain Stopped: `running` was set before the `await`
and stays `true`, and a subsequent `start()` — even with a now-working
backend — returns immediately without starting anything.  The code
contradicts the spec's requirement that the transport remain `Stopped`. -/
theorem start_failure_not_stopped :
    (start initEngine 0 false).1.running = true ∧
    (start initEngine 0 false).1.intervalInstalled = false ∧
    (start initEngine 0 false).2 = false ∧
    (start (start initEngine 0 false).1 0 true).1 = (start initEngine 0 false).1 :=
  ⟨rfl, rfl, rfl, rfl⟩

/-- With the interval timer uninstalled, no subsequent event dispatches a
trigger (and no event re-installs the timer short of `start()`). -/
theorem runTrace_uninstalled_no_triggers :
    ∀ (acts : List EngAction) (s : EngineState), s.intervalInstalled = false →
      (runTrace s acts).1 = [] := by
  intro acts
  induction acts with
  | nil => intro s _; rfl
  | cons a rest ih =>
    intro s hs
    cases a with
    | tick cur =>
      simp only [runTrace, stepAction, hs, Bool.false_eq_true, if_false]
      simpa using ih s hs
    | stopAct =>
      have h2 : (stop s).intervalInstalled = false := by
        by_cases hr : s.running = true
        · simp [stop, hr]
        · simp only [Bool.not_eq_true] at hr
          simp [stop, hr, hs]
      simp only [runTrace, stepAction]
      simpa using ih (stop s) h2
    | updateAct c =>
      simp only [runTrace, stepAction]
      have h2 : ((updateControls s c).1).intervalInstalled = false := hs
      simpa using ih _ h2
    | setSeedAct seed =>
      simp only [runTrace, stepAction]
      have h2 : (setSeed s seed).intervalInstalled = false := hs
      simpa using ih _ h2
    | setVolumeAct v =>
      simp only [runTrace, stepAction]
      have h2 : (setVolume s v).intervalInstalled = false := hs
      simpa using ih _ h2

/-- C4 (amended): after `stop()` returns, no backend trigger is ever
dispatched before the next `start()` — because `stop()` cancels the
`setInterval` timer and callbacks are atomic in the single-threaded host,
not because the running flag is checked per role (it is not; see the
counterexample).  The hypothesis is the reachable-state invariant that a
live timer implies the running flag. -/
theorem no_dispatch_after_stop (s : EngineState) (acts : List EngAction)
    (h : s.intervalInstalled = true → s.running = true) :
    (stop s).intervalInstalled = false ∧ (runTrace (stop s) acts).1 = [] := by
  have hstop : (stop s).intervalInstalled = false := by
    by_cases hr : s.running = true
    · simp [stop, hr]
    · simp only [Bool.not_eq_true] at hr
      have hi : s.intervalInstalled = false := by
        by_cases hi2 : s.intervalInstalled = true
        · rw [h hi2] at hr; cases hr
        · simpa using hi2
      simp [stop, hr, hi]
  exact ⟨hstop, runTrace_uninstalled_no_triggers acts _ hstop⟩

/-- Witness for C4 at a concrete running engine and a concrete post-stop
event sequence containing timer ticks and a control update. -/
theorem no_dispatch_after_stop_witness :
    (stop { initEngine with running := true, intervalInstalled := true }).intervalInstalled = false ∧
    (runTrace (stop { initEngine with running := true, intervalInstalled := true })
      [EngAction.tick 1, EngAction.updateAct ⟨0, 0, 0, 0, 0⟩, EngAction.tick 2]).1 = [] :=
  no_dispatch_after_stop _ _ (fun _ => rfl)

/-- C4 counterexample: the running flag is **not** checked at the point of
triggering each role — `scheduleStep` on a state with `running = false`
still dispatches triggers (here at beat 2, where the kick pattern has an
onset). -/
theorem scheduleStep_ignores_running_flag :
    initEngine.running = false ∧
    (scheduleStep initEngine 2 0).map (fun r => r.2.isEmpty) = some false := by
  refine ⟨rfl, ?_⟩
  with_unfolding_all decide


/-! ### Density invariant (C7) -/

theorem flo_mul_lt (q : ℚ) (c : ℕ) (_h0 : 0 ≤ q) (h1 : q < 1) (hc : 0 < c) :
    flo (q * c) < c := by
  unfold flo
  have h2 : q * c < c := by
    calc q * (c : ℚ) < 1 * c := by
          exact mul_lt_mul_of_pos_right h1 (by exact_mod_cast hc)
      _ = c := one_mul _
  have h3 : ⌊q * (c : ℚ)⌋ < (c : ℤ) := by
    rw [Int.floor_lt]
    exact_mod_cast h2
  omega

theorem flo_rng_lt (seed : List ℕ) (n c : ℕ) (hc : 0 < c) :
    flo (rngFloat seed n * c) < c :=
  flo_mul_lt _ _ (rngFloat_nonneg seed n) (rngFloat_lt_one seed n) hc

theorem getD_mem_of_lt (l : List ℕ) (i : ℕ) (hi : i < l.length) : l.getD i 0 ∈ l := by
  rw [List.getD_eq_getElem _ _ hi]
  exact List.getElem_mem hi

theorem jsRound_le (q : ℚ) (b : ℕ) (h : q ≤ b) : jsRound q ≤ b := by
  unfold jsRound
  have h2 : ⌊q + 1/2⌋ ≤ ⌊(b : ℚ) + 1/2⌋ := Int.floor_le_floor (by linarith)
  have hb : ⌊(b : ℚ) + 1/2⌋ = (b : ℤ) := by
    rw [Int.floor_eq_iff]
    constructor
    · push_cast; linarith
    · push_cast; linarith
  omega

theorem setSeed_denInv (s : EngineState) (seed : List ℕ) : denInv (setSeed s seed) := by
  have hLk := getD_mem_of_lt [13, 15, 17, 19] (flo (rngFloat seed 0 * 4))
    (by simpa using flo_rng_lt seed 0 4 (by norm_num))
  have hLs := getD_mem_of_lt [12, 14, 16] (flo (rngFloat seed 1 * 3))
    (by simpa using flo_rng_lt seed 1 3 (by norm_num))
  have hLh := getD_mem_of_lt [13, 15, 17, 19] (flo (rngFloat seed 2 * 4))
    (by simpa using flo_rng_lt seed 2 4 (by norm_num))
  have hLa := getD_mem_of_lt [10, 11, 14, 18] (flo (rngFloat seed 3 * 4))
    (by simpa using flo_rng_lt seed 3 4 (by norm_num))
  have hLb := getD_mem_of_lt [13, 15, 17, 19] (flo (rngFloat seed 4 * 4))
    (by simpa using flo_rng_lt seed 4 4 (by norm_num))
  have hk := flo_rng_lt seed 5 4 (by norm_num)
  have hsn := flo_rng_lt seed 6 4 (by norm_num)
  have hh := flo_rng_lt seed 7 6 (by norm_num)
  have ha := flo_rng_lt seed 8 6 (by norm_num)
  have hb := flo_rng_lt seed 9 5 (by norm_num)
  have hc := flo_rng_lt seed 10 3 (by norm_num)
  push_cast at hLk hLs hLh hLa hLb hk hsn hh ha hb hc
  simp only [List.mem_cons, List.not_mem_nil, or_false] at hLk hLs hLh hLa hLb
  refine ⟨?_, ?_, ?_, ?_, ?_, ?_⟩ <;>
    simp only [setSeed] <;> omega

/-- C7 (amended): after `setSeed` with any seed, `0 ≤ density ≤ length`
holds for all six roles; a subsequent `updateControls` with any control
vector preserves the invariant for kick, snare, clap, bass and arp (the
kick/clap/bass/arp densities and all lengths are untouched, and the new
snare density is at most 8 ≤ the seeded snare length), but it sets the hat
density to `round(8 + 8·activity) ∈ [8, 16]`, which can exceed the seeded
hat length of 13 or 15 — the invariant does not persist for the hat role
(see the counterexample). -/
theorem setSeed_updateControls_density (s : EngineState) (seed : List ℕ)
    (s2 : EngineState) (c : AudioControls) (hinv : denInv s2) (hLs : 8 ≤ s2.Ls) :
    denInv (setSeed s seed) ∧
    ((updateControls s2 c).1.denKick ≤ (updateControls s2 c).1.Lk ∧
     (updateControls s2 c).1.denSnare ≤ (updateControls s2 c).1.Ls ∧
     (updateControls s2 c).1.denClaps ≤ (updateControls s2 c).1.Ls ∧
     (updateControls s2 c).1.denBass ≤ (updateControls s2 c).1.Lb ∧
     (updateControls s2 c).1.denArp ≤ (updateControls s2 c).1.La ∧
     (updateControls s2 c).1.denHat ≤ 16) := by
  refine ⟨setSeed_denInv s seed, ?_, ?_, ?_, ?_, ?_, ?_⟩
  · exact hinv.1
  · have hk1 : clamp c.activity 0 1 ≤ 1 := min_le_left _ _
    have h8 : (updateControls s2 c).1.denSnare ≤ 8 := by
      show jsRound (3 + clamp c.activity 0 1 * 5) ≤ 8
      apply jsRound_le
      push_cast
      linarith
    have hLs' : (updateControls s2 c).1.Ls = s2.Ls := rfl
    omega
  · exact hinv.2.2.2.1
  · exact hinv.2.2.2.2.1
  · exact hinv.2.2.2.2.2
  · have hk1 : clamp c.activity 0 1 ≤ 1 := min_le_left _ _
    show jsRound (8 + clamp c.activity 0 1 * 8) ≤ 16
    apply jsRound_le
    push_cast
    linarith

/-- Witness for C7 at the default engine, the empty seed, and the
all-ones control vector. -/
theorem setSeed_updateControls_density_witness :
    denInv (setSeed initEngine []) ∧
    ((updateControls initEngine ⟨1, 1, 1, 1, 0⟩).1.denKick
        ≤ (updateControls initEngine ⟨1, 1, 1, 1, 0⟩).1.Lk ∧
     (updateControls initEngine ⟨1, 1, 1, 1, 0⟩).1.denSnare
        ≤ (updateControls initEngine ⟨1, 1, 1, 1, 0⟩).1.Ls ∧
     (updateControls initEngine ⟨1, 1, 1, 1, 0⟩).1.denClaps
        ≤ (updateControls initEngine ⟨1, 1, 1, 1, 0⟩).1.Ls ∧
     (updateControls initEngine ⟨1, 1, 1, 1, 0⟩).1.denBass
        ≤ (updateControls initEngine ⟨1, 1, 1, 1, 0⟩).1.Lb ∧
     (updateControls initEngine ⟨1, 1, 1, 1, 0⟩).1.denArp
        ≤ (updateControls initEngine ⟨1, 1, 1, 1, 0⟩).1.La ∧
     (updateControls initEngine ⟨1, 1, 1, 1, 0⟩).1.denHat ≤ 16) :=
  setSeed_updateControls_density initEngine [] initEngine ⟨1, 1, 1, 1, 0⟩
    (by refine ⟨?_, ?_, ?_, ?_, ?_, ?_⟩ <;> decide) (by decide)

/-- C7 counterexample: seeding with `"abc"` (`[97, 98, 99]`) selects hat
length 15, and `updateControls` with activity 1 then sets the hat density to
16 > 15, violating the claimed invariant. -/
theorem updateControls_hat_exceeds_length :
    (updateControls (setSeed initEngine [97, 98, 99]) ⟨0, 0, 0, 1, 0⟩).1.Lh
      < (updateControls (setSeed initEngine [97, 98, 99]) ⟨0, 0, 0, 1, 0⟩).1.denHat := by
  with_unfolding_all decide

set_option maxRecDepth 1000000 in
/-- C9 (amended): starting the transport and advancing the simulated clock
by 10 seconds (400 ticks of the 25 ms timer) at a fixed 120 BPM schedules
exactly **81** sixteenth-note steps, not 80: dispatch runs 150 ms ahead of
the clock while the start offset is only 50 ms, so at wall-clock 10 s every
step with timestamp below 10.15 s — timestamps 0.05 + 0.125·j for
j = 0..80 — has been dispatched.  (Equivalently, exactly 80 of the
dispatched steps have timestamps inside the 10-second window.) -/
theorem ten_s_120bpm_steps_81 : c9Count = some 81 := by with_unfolding_all decide

set_option maxRecDepth 1000000 in
/-- C9 counterexample: the scenario does not schedule exactly 80 steps. -/
theorem ten_s_120bpm_not_80 : c9Count ≠ some 80 := by with_unfolding_all decide


end GenArt
